import Mathlib

/-!
# Verification of `git-memo` (`src/commands.rs`) against its specification

Shallow embedding of the core library (`src/commands.rs`) of the `git-memo`
repository.  Memos are Git commits chained under `refs/memo/<category>`;
the operations modelled here are `add_memo`, `list_memos`, `remove_memos`,
`list_categories`, `list_archive_categories`, `edit_memo` and
`archive_category`, together with the helpers `validate_category` and
`make_signature`.

Modelling notes:
* A commit is modelled by the inductive `Commit`; since every commit the
  program creates has zero or one parent (`add_memo` builds `parents` as a
  vector of length 0 or 1, and `amend` keeps parents), the parent is a single
  optional commit, represented by the two constructors `root` / `child`.
* Content addressing (git's SHA-1 object ids) is modelled by serialising a
  commit the way git does (`tree`/`parent`/`author`/`committer` lines followed
  by the message, parents referenced by their object id) and applying a
  deterministic digest function `digest` (a fixed polynomial hash reduced
  mod 2^160, standing in for SHA-1).
* The reference store of the repository is an association list from reference
  name to the head commit; `open_repo` (which only checks for a `.git`
  directory) and stdin handling (`"-"` messages) are outside the model: the
  operations receive the repository state and the final message directly.
* git configuration is the `GitConfig` record (`user.name` / `user.email`);
  the current wall-clock time used by `Signature::now` is passed explicitly.
* Concurrency is modelled at the point where it acts: the compare-and-swap
  performed by `repo.commit(Some(&refname), ...)` / `commit.amend(...)`.
  `addMemoGo` mirrors the retry loop of `add_memo` with the per-attempt
  environment (`AttemptWorld`) supplying what the loop observes: the value of
  the reference at the read, and the outcome of the CAS.
-/

/-- Error codes of `git2::ErrorCode` that the program distinguishes, plus the
codes produced by `git2::Error::from_str` (`generic`) and missing
references (`notFound`). -/
inductive ErrorCode where
  | notFastForward
  | modified
  | locked
  | refExists
  | notFound
  | generic
deriving DecidableEq, Repr

/-- A `git2::Error`: an error code plus its message. -/
structure GitError where
  code : ErrorCode
  message : String
deriving DecidableEq, Repr

/-- The conflict 'class' matched by the retry arm of `add_memo`
(`ErrorCode::NotFastForward | Modified | Locked | Exists`). -/
def isConflictCode (c : ErrorCode) : Bool :=
  match c with
  | ErrorCode.notFastForward => true
  | ErrorCode.modified => true
  | ErrorCode.locked => true
  | ErrorCode.refExists => true
  | _ => false

/-- A `git2::Signature`: display name, contact email, and the timestamp
(seconds since epoch plus timezone offset in minutes) recorded at
construction time. -/
structure Signature where
  name : String
  email : String
  time : Int
  offset : Int
deriving DecidableEq, Repr

/-- A git commit object as created by this program: a tree id, zero or one
parent commit, author and committer signatures, and a message.  The parent
is carried as a full sub-object so that the content-addressed id (`oidOf`)
is a genuine Merkle hash over the whole chain. -/
inductive Commit where
  | root (tree : String) (author : Signature) (committer : Signature) (message : String)
  | child (tree : String) (parent : Commit) (author : Signature) (committer : Signature)
      (message : String)
deriving DecidableEq, Repr

/-- Build a commit from an optional parent, the way
`repo.commit(..., &parents)` consumes a parents vector of length 0 or 1. -/
def mkCommit (tree : String) (parent : Option Commit) (author committer : Signature)
    (message : String) : Commit :=
  match parent with
  | none => Commit.root tree author committer message
  | some p => Commit.child tree p author committer message

def Commit.tree : Commit → String
  | Commit.root t _ _ _ => t
  | Commit.child t _ _ _ _ => t

def Commit.parent : Commit → Option Commit
  | Commit.root _ _ _ _ => none
  | Commit.child _ p _ _ _ => some p

def Commit.author : Commit → Signature
  | Commit.root _ a _ _ => a
  | Commit.child _ _ a _ _ => a

def Commit.committer : Commit → Signature
  | Commit.root _ _ c _ => c
  | Commit.child _ _ _ c _ => c

def Commit.message : Commit → String
  | Commit.root _ _ _ m => m
  | Commit.child _ _ _ _ m => m

/-- git's serialisation of a signature inside a commit object:
`name <email> time offset`. -/
def sigText (s : Signature) : String :=
  s.name ++ " <" ++ s.email ++ "> " ++ toString s.time ++ " " ++ toString s.offset

/-- git's serialisation of a commit object (header lines then message); the
parent, if any, appears only through its object id (`parentLine`). -/
def commitText (tree parentLine : String) (author committer : Signature)
    (message : String) : String :=
  "tree " ++ tree ++ "\n" ++ parentLine ++ "author " ++ sigText author ++
    "\ncommitter " ++ sigText committer ++ "\n\n" ++ message

/-- Deterministic digest standing in for SHA-1: a polynomial hash of the
serialised bytes, reduced modulo 2^160 (the width of a git object id). -/
def digest (s : String) : Nat :=
  s.foldl (fun h c => (h * 31 + c.toNat) % (2 ^ 160)) 7

/-- The content-addressed object id of a commit: the digest of its git
serialisation, where the parent is referenced by its own object id
(Merkle hashing, as git does). -/
def oidOf : Commit → Nat
  | Commit.root t a c m => digest (commitText t "" a c m)
  | Commit.child t p a c m =>
      digest (commitText t ("parent " ++ toString (oidOf p) ++ "\n") a c m)

/-- The object id of a commit's parent, if any (what the spec calls the
node's `parent` ObjectId). -/
def parentOid (c : Commit) : Option Nat :=
  match c with
  | Commit.root _ _ _ _ => none
  | Commit.child _ p _ _ _ => some (oidOf p)

/-- The git configuration the program reads: `user.name` and `user.email`,
each possibly unset. -/
structure GitConfig where
  userName : Option String
  userEmail : Option String
deriving DecidableEq, Repr

/-- The reference store plus the data `add_memo` derives from `HEAD`:
`headTree` is the tree id of the `HEAD` commit when `repo.head()` resolves
(otherwise the empty tree is used), and `refs` maps reference names to the
commit they point at. -/
structure Repo where
  headTree : Option String
  refs : List (String × Commit)
deriving DecidableEq, Repr

/-- The object id of git's empty tree, used when `repo.head()` fails. -/
def emptyTreeOid : String := "4b825dc642cb6eb9a060e54bf8d69288fbee4904"

/-- The tree `add_memo` commits against: the `HEAD` tree if `HEAD` resolves,
else the freshly written empty tree. -/
def treeOid (repo : Repo) : String :=
  match repo.headTree with
  | some t => t
  | none => emptyTreeOid

/-- `repo.refname_to_id` / `repo.find_reference` composed with
`find_commit`: resolve a reference name to its commit. -/
def refLookup : List (String × Commit) → String → Option Commit
  | [], _ => none
  | (n, v) :: rest, name => if n = name then some v else refLookup rest name

/-- Update (or create) a reference so that it points at `c`. -/
def refSet : List (String × Commit) → String → Commit → List (String × Commit)
  | [], name, c => [(name, c)]
  | (n, v) :: rest, name, c =>
      if n = name then (n, c) :: rest else (n, v) :: refSet rest name c

/-- `reference.delete()`: drop a reference from the store. -/
def refDelete (refs : List (String × Commit)) (name : String) : List (String × Commit) :=
  refs.filter (fun p => !(p.1 == name))

/-- The live pointer of a category: `refs/memo/<category>`. -/
def memoRef (category : String) : String := "refs/memo/" ++ category

/-- The archive pointer of a category: `refs/archive/<category>`. -/
def archiveRef (category : String) : String := "refs/archive/" ++ category

/-- Characters libgit2 refuses anywhere in a reference name: ASCII control
characters, space, `~`, `^`, `:`, `?`, `*`, `[` and backslash. -/
def badRefChar (c : Char) : Bool :=
  c.toNat ≤ 31 || c.toNat == 127 || c == ' ' || c == '~' || c == '^' ||
    c == ':' || c == '?' || c == '*' || c == Char.ofNat 91 || c == '\\'

/-- Does the adjacent pair `a`,`b` occur in the character list? -/
def hasPair (a b : Char) : List Char → Bool
  | [] => false
  | [_] => false
  | x :: y :: rest => (x == a && y == b) || hasPair a b (y :: rest)

/-- Split a character list on `/` into path components. -/
def splitSlash : List Char → List (List Char)
  | [] => [[]]
  | c :: rest =>
      if c == '/' then [] :: splitSlash rest
      else
        match splitSlash rest with
        | comp :: comps => (c :: comp) :: comps
        | [] => [[c]]

/-- A single path component of a reference name must be nonempty, must not
begin with a dot and must not end with `.lock`. -/
def componentOk (comp : List Char) : Bool :=
  !comp.isEmpty && comp.head? != some '.' &&
    comp.reverse.take 5 != ['k', 'c', 'o', 'l', '.']

/-- Modelled from libgit2's reference-name format check backing
`git2::Reference::is_valid_name`: no forbidden characters, no `..`, no
`@` followed by an opening brace, no leading/trailing/doubled slash, not
ending in a dot, and every slash-separated component well formed. -/
def refFormatOk (s : String) : Bool :=
  let cs := s.toList
  !cs.isEmpty && cs.all (fun c => !badRefChar c) &&
    !hasPair '.' '.' cs && !hasPair '@' (Char.ofNat 123) cs &&
    !hasPair '/' '/' cs &&
    cs.head? != some '/' && cs.getLast? != some '/' && cs.getLast? != some '.' &&
    (splitSlash cs).all componentOk

/-- The naming constraint of `validate_category`: the full reference name
`refs/memo/<name>` must be a valid git reference name. -/
def isValidCategory (name : String) : Bool :=
  refFormatOk (memoRef name)

/-- The error produced for an invalid category name (the `Err` of
`validate_category`, turned into a `git2::Error` via `from_str` by every
caller). -/
def invalidCategoryError (name : String) : GitError :=
  GitError.mk ErrorCode.generic ("Invalid category name: " ++ name)

/-- `validate_category`, composed with the `map_err(git2::Error::from_str)`
every caller applies. -/
def validate_category (name : String) : Except GitError Unit :=
  if isValidCategory name then Except.ok () else Except.error (invalidCategoryError name)

/-- The error message of `make_signature` when `user.name` is unset. -/
def missingNameMsg : String :=
  "Git user.name must be set.\nRun `git config --global user.name <name>`"

/-- Rust's `s.trim().is_empty()`: true exactly when every character of the
string is whitespace. -/
def isBlank (s : String) : Bool :=
  s.toList.all (fun c => c.isWhitespace)

/-- `make_signature`: `user.name` is required, `user.email` is optional and
replaced by `"none"` when absent or blank.  `now` is the wall-clock
timestamp `git2::Signature::now` records. -/
def make_signature (config : GitConfig) (now : Int × Int) : Except GitError Signature :=
  match config.userName with
  | none => Except.error (GitError.mk ErrorCode.generic missingNameMsg)
  | some name =>
      let email0 := config.userEmail.getD ""
      let email := if isBlank email0 then "none" else email0
      Except.ok (Signature.mk name email now.1 now.2)

deriving instance DecidableEq for Except

/-- The result of one command: the repository state after the call, the lines
printed to stdout, and the `Result` value returned. -/
structure CmdOut where
  repo : Repo
  out : List String
  res : Except GitError Unit
deriving DecidableEq, Repr

/-- The "no memos" notice printed when a category's pointer is absent. -/
def noMemosMsg (category : String) : String :=
  "No memos found for category " ++ category

/-- The chain of a head commit, newest first: the sequence `revwalk`
visits before `Sort::REVERSE` is applied. -/
def chainNewestFirst : Commit → List Commit
  | Commit.root t a c m => [Commit.root t a c m]
  | Commit.child t p a c m => Commit.child t p a c m :: chainNewestFirst p

/-- The chain of a head commit oldest first: what the reversed revwalk of
`list_memos` yields. -/
def chainOldestFirst (head : Commit) : List Commit :=
  (chainNewestFirst head).reverse

/-- `commit.summary()`: the first line of the message (empty for an empty
message). -/
def summaryOf (m : String) : String :=
  match m.splitOn "\n" with
  | [] => ""
  | line :: _ => line

/-- Minimal JSON string escaping (backslash and double quote), standing in for
serde's escaping. -/
def jsonEscape (s : String) : String :=
  s.foldl
    (fun acc c =>
      if c == '\\' then acc ++ "\\\\"
      else if c == Char.ofNat 34 then acc ++ "\\\""
      else acc.push c)
    ""

/-- Interleave a separator between rendered items. -/
def joinSep (sep : String) : List String → String
  | [] => ""
  | [x] => x
  | x :: y :: rest => x ++ sep ++ joinSep sep (y :: rest)

/-- serde_json's pretty rendering of an array of strings. -/
def jsonStrings (xs : List String) : String :=
  match xs with
  | [] => "[]"
  | _ =>
      "[\n" ++ joinSep ",\n" (xs.map (fun s => "  \"" ++ jsonEscape s ++ "\"")) ++ "\n]"

/-- serde_json's pretty rendering of the `oid`/`message` objects printed by
`list_memos --json`. -/
def jsonMemoEntry (e : Nat × String) : String :=
  "  \x7b\n    \"message\": \"" ++ jsonEscape e.2 ++ "\",\n    \"oid\": \"" ++
    toString e.1 ++ "\"\n  \x7d"

/-- The JSON document `list_memos --json` prints. -/
def jsonMemos (entries : List (Nat × String)) : String :=
  match entries with
  | [] => "[]"
  | _ => "[\n" ++ joinSep ",\n" (entries.map jsonMemoEntry) ++ "\n]"

/-- `add_memo` under no interference from concurrent writers (the CAS of the
first loop iteration succeeds): validate the category, determine the tree,
build the signature, read the current head of `refs/memo/<category>`, commit
a node whose parent is that head and advance the pointer to it.
Stdin (`"-"`) handling is outside the model: `message` is the final text. -/
def add_memo (repo : Repo) (config : GitConfig) (now : Int × Int)
    (category message : String) : CmdOut :=
  match validate_category category with
  | Except.error e => CmdOut.mk repo [] (Except.error e)
  | Except.ok _ =>
    let tree := treeOid repo
    match make_signature config now with
    | Except.error e => CmdOut.mk repo [] (Except.error e)
    | Except.ok sig =>
      let refname := memoRef category
      let parent := refLookup repo.refs refname
      let node := mkCommit tree parent sig sig message
      CmdOut.mk
        (Repo.mk repo.headTree (refSet repo.refs refname node))
        ["Recorded memo " ++ toString (oidOf node) ++ " under " ++ refname]
        (Except.ok ())

/-- `list_memos`: print the chain oldest-first (plain lines `oid summary`,
or one pretty JSON document with `--json`); an absent pointer is reported as
"No memos found" and is not an error. -/
def list_memos (repo : Repo) (category : String) (jsonOutput : Bool) : CmdOut :=
  match validate_category category with
  | Except.error e => CmdOut.mk repo [] (Except.error e)
  | Except.ok _ =>
    match refLookup repo.refs (memoRef category) with
    | none => CmdOut.mk repo [noMemosMsg category] (Except.ok ())
    | some head =>
      let entries :=
        (chainOldestFirst head).map (fun c => (oidOf c, summaryOf (Commit.message c)))
      if jsonOutput then
        CmdOut.mk repo [jsonMemos entries] (Except.ok ())
      else
        CmdOut.mk repo (entries.map (fun e => toString e.1 ++ " " ++ e.2)) (Except.ok ())

/-- `remove_memos`: delete the category's pointer; an absent pointer is
reported as "No memos found" and is not an error. -/
def remove_memos (repo : Repo) (category : String) : CmdOut :=
  match validate_category category with
  | Except.error e => CmdOut.mk repo [] (Except.error e)
  | Except.ok _ =>
    let refname := memoRef category
    match refLookup repo.refs refname with
    | some _ =>
        CmdOut.mk (Repo.mk repo.headTree (refDelete repo.refs refname))
          ["Removed " ++ refname] (Except.ok ())
    | none => CmdOut.mk repo [noMemosMsg category] (Except.ok ())

/-- Drop a leading namespace from a reference name, when present (the
`strip_prefix` step of the category listings). -/
def dropNamespaceOf (ns s : String) : Option String :=
  if ns.isPrefixOf s then some (s.drop ns.length) else none

/-- `BTreeSet::insert` on the sorted, duplicate-free list of category names:
keep the list strictly ascending, ignoring an element already present. -/
def setInsert (x : String) : List String → List String
  | [] => [x]
  | y :: ys =>
      if x < y then x :: y :: ys
      else if y < x then y :: setInsert x ys
      else y :: ys

/-- The `BTreeSet` of category names built by `list_categories` /
`list_archive_categories`: every reference name under the namespace glob,
with the namespace stripped, collected into a sorted set. -/
def categoriesUnder (ns : String) (refs : List (String × Commit)) : List String :=
  refs.foldl
    (fun acc p =>
      match dropNamespaceOf ns p.1 with
      | some cat => setInsert cat acc
      | none => acc)
    []

/-- `list_categories`: print every memo category once, in ascending order
(as a JSON array of strings with `--json`). -/
def list_categories (repo : Repo) (jsonOutput : Bool) : CmdOut :=
  let cats := categoriesUnder "refs/memo/" repo.refs
  if jsonOutput then CmdOut.mk repo [jsonStrings cats] (Except.ok ())
  else CmdOut.mk repo cats (Except.ok ())

/-- `list_archive_categories`: the same listing over `refs/archive/*`. -/
def list_archive_categories (repo : Repo) (jsonOutput : Bool) : CmdOut :=
  let cats := categoriesUnder "refs/archive/" repo.refs
  if jsonOutput then CmdOut.mk repo [jsonStrings cats] (Except.ok ())
  else CmdOut.mk repo cats (Except.ok ())

/-- The conflict error libgit2 raises when the reference moved between the
read and the single CAS of `commit.amend` (code `Modified`). -/
def amendConflictError : GitError :=
  GitError.mk ErrorCode.modified "failed to update reference: the reference has changed"

/-- `edit_memo`: read the current head of the category, build a replacement
commit with the same tree and the same parent but the new message (and a
fresh signature), and update the pointer with a single CAS — `commit.amend`
updates the reference only if it still equals the commit being amended.
`casHead` is the object id the reference holds at the instant of that CAS
(equal to the head's id unless a concurrent writer intervened); on a
mismatch the conflict error is returned at once, with no retry. -/
def edit_memo (repo : Repo) (config : GitConfig) (now : Int × Int)
    (category message : String) (casHead : Option Nat) : CmdOut :=
  match validate_category category with
  | Except.error e => CmdOut.mk repo [] (Except.error e)
  | Except.ok _ =>
    let refname := memoRef category
    match refLookup repo.refs refname with
    | none => CmdOut.mk repo [noMemosMsg category] (Except.ok ())
    | some head =>
      match make_signature config now with
      | Except.error e => CmdOut.mk repo [] (Except.error e)
      | Except.ok sig =>
        let node := mkCommit (Commit.tree head) (Commit.parent head) sig sig message
        if casHead == some (oidOf head) then
          CmdOut.mk (Repo.mk repo.headTree (refSet repo.refs refname node))
            ["Updated memo " ++ toString (oidOf node) ++ " under " ++ refname]
            (Except.ok ())
        else
          CmdOut.mk repo [] (Except.error amendConflictError)

/-- `archive_category`: move `refs/memo/<category>` to
`refs/archive/<category>` via `reference.rename(&dst, true, "archive")` —
the `true` is libgit2's `force` flag, so an existing destination is
replaced.  An absent live pointer is reported as "No memos found". -/
def archive_category (repo : Repo) (category : String) : CmdOut :=
  match validate_category category with
  | Except.error e => CmdOut.mk repo [] (Except.error e)
  | Except.ok _ =>
    let src := memoRef category
    let dst := archiveRef category
    match refLookup repo.refs src with
    | some head =>
        CmdOut.mk (Repo.mk repo.headTree (refSet (refDelete repo.refs src) dst head))
          ["Archived " ++ src ++ " to " ++ dst] (Except.ok ())
    | none => CmdOut.mk repo [noMemosMsg category] (Except.ok ())

/-- What one iteration of the retry loop of `add_memo` observes: the value of
`refs/memo/<category>` at the `refname_to_id` read of that iteration
(`head`), and the outcome of the CAS performed by
`repo.commit(Some(&refname), ...)` for the node built in that iteration
(`cas` — `ok` when the reference still held `head` at commit time, an error
otherwise).  Concurrent writers act through this environment. -/
structure AttemptWorld where
  head : Option Commit
  cas : Except GitError Unit
deriving Repr

/-- The retry ceiling of `add_memo` (`let max_attempts = 5`). -/
def maxAttempts : Nat := 5

/-- The dead-code error built after the retry loop of `add_memo`
(`Err(git2::Error::from_str(&format!("Failed to update {refname} after
{max_attempts} attempts")))`). -/
def retryExhaustedError (refname : String) : GitError :=
  GitError.mk ErrorCode.generic
    ("Failed to update " ++ refname ++ " after " ++ toString maxAttempts ++ " attempts")

/-- The retry loop of `add_memo` (`for attempt in 0..max_attempts`), with the
loop encoded by the remaining iteration count `fuel` (`fuel = maxAttempts -
attempt`; the loop body runs only while `attempt < maxAttempts`, i.e. while
`fuel > 0`).  Each iteration re-reads the head (`(env attempt).head`),
rebuilds the node with that value as its parent, and attempts the CAS:
on success the new object id is returned; on a conflict-class error with
`attempt + 1 < maxAttempts` the loop continues; any other error — and a
conflict-class error on the final attempt — is returned as is.  Falling out
of the loop would yield `retryExhaustedError`. -/
def addMemoGo (tree : String) (sig : Signature) (message refname : String)
    (env : Nat → AttemptWorld) : Nat → Nat → Except GitError Nat
  | _, 0 => Except.error (retryExhaustedError refname)
  | attempt, fuel + 1 =>
    let w := env attempt
    let node := mkCommit tree w.head sig sig message
    match w.cas with
    | Except.ok _ => Except.ok (oidOf node)
    | Except.error e =>
        if isConflictCode e.code && attempt + 1 < maxAttempts then
          addMemoGo tree sig message refname env (attempt + 1) fuel
        else
          Except.error e

/-- The whole retry loop of `add_memo`, started at attempt 0. -/
def addMemoLoop (tree : String) (sig : Signature) (message refname : String)
    (env : Nat → AttemptWorld) : Except GitError Nat :=
  addMemoGo tree sig message refname env 0 maxAttempts

/-- The head of `refs/memo/<category>` after a sequence of uncontended
appends, starting from head `h`: each append chains a new node whose parent
is the previous head. -/
def chainAfter (tree : String) (sig : Signature) : Option Commit → List String → Option Commit
  | h, [] => h
  | h, m :: ms => chainAfter tree sig (some (mkCommit tree h sig sig m)) ms

/-- The nodes created by a sequence of uncontended appends starting from head
`h`, oldest first. -/
def nodesFrom (tree : String) (sig : Signature) : Option Commit → List String → List Commit
  | _, [] => []
  | h, m :: ms =>
      mkCommit tree h sig sig m :: nodesFrom tree sig (some (mkCommit tree h sig sig m)) ms

/-- Run `add_memo` sequentially for each message of the list (a single
writer, no interference), threading the repository state. -/
def appendAll (config : GitConfig) (now : Int × Int) (category : String) :
    Repo → List String → Repo
  | repo, [] => repo
  | repo, m :: ms =>
      appendAll config now category (add_memo repo config now category m).repo ms

/-- Chain-integrity check on an oldest-first node list: the first node's
parent ObjectId must equal `expected` and every later node's parent ObjectId
must equal the ObjectId of the node before it. -/
def linkedOids : Option Nat → List Commit → Bool
  | _, [] => true
  | expected, c :: rest => (parentOid c == expected) && linkedOids (some (oidOf c)) rest

/-! ## Shared lemmas -/

theorem validate_category_invalid {category : String}
    (h : isValidCategory category = false) :
    validate_category category = Except.error (invalidCategoryError category) := by
  simp [validate_category, h]

theorem validate_category_valid {category : String}
    (h : isValidCategory category = true) :
    validate_category category = Except.ok () := by
  simp [validate_category, h]

theorem refLookup_refSet_self (refs : List (String × Commit)) (name : String) (c : Commit) :
    refLookup (refSet refs name c) name = some c := by
  induction refs with
  | nil => simp [refSet, refLookup]
  | cons p rest ih =>
      obtain ⟨n, v⟩ := p
      by_cases h : n = name
      · simp [refSet, refLookup, h]
      · simp [refSet, refLookup, h, ih]

theorem parentOid_mkCommit (tree : String) (h : Option Commit) (a c : Signature)
    (m : String) : parentOid (mkCommit tree h a c m) = h.map oidOf := by
  cases h <;> simp [mkCommit, parentOid]

theorem message_mkCommit (tree : String) (h : Option Commit) (a c : Signature)
    (m : String) : Commit.message (mkCommit tree h a c m) = m := by
  cases h <;> simp [mkCommit, Commit.message]

/-! ## C9 — object ids are a deterministic function of the node's content -/

/-- C9: the ObjectId of a chain node is a deterministic function of exactly
`{payload, authorIdentity, timestamp, parent}` (plus the tree): two commits
agreeing on tree, parent ObjectId, author, committer (which carries the
timestamp) and message have the same ObjectId — identical inputs always
hash identically. -/
theorem oid_deterministic (c₁ c₂ : Commit)
    (htree : Commit.tree c₁ = Commit.tree c₂)
    (hparent : parentOid c₁ = parentOid c₂)
    (hauthor : Commit.author c₁ = Commit.author c₂)
    (hcommitter : Commit.committer c₁ = Commit.committer c₂)
    (hmessage : Commit.message c₁ = Commit.message c₂) :
    oidOf c₁ = oidOf c₂ := by
  cases c₁ with
  | root t₁ a₁ k₁ m₁ =>
      cases c₂ with
      | root t₂ a₂ k₂ m₂ =>
          simp only [Commit.tree, Commit.author, Commit.committer, Commit.message,
            parentOid] at htree hauthor hcommitter hmessage
          simp [oidOf, htree, hauthor, hcommitter, hmessage]
      | child t₂ p₂ a₂ k₂ m₂ => simp [parentOid] at hparent
  | child t₁ p₁ a₁ k₁ m₁ =>
      cases c₂ with
      | root t₂ a₂ k₂ m₂ => simp [parentOid] at hparent
      | child t₂ p₂ a₂ k₂ m₂ =>
          simp only [Commit.tree, Commit.author, Commit.committer, Commit.message,
            parentOid, Option.some.injEq] at htree hparent hauthor hcommitter hmessage
          simp [oidOf, htree, hparent, hauthor, hcommitter, hmessage]

/-- Witness for C9 at a concrete input: two separately constructed nodes with
byte-identical content receive the same ObjectId. -/
theorem oid_deterministic_witness :
    oidOf (Commit.root "t0" (Signature.mk "Ann" "a@b" 10 0) (Signature.mk "Ann" "a@b" 10 0) "hello")
      = oidOf (mkCommit "t0" none (Signature.mk "Ann" "a@b" 10 0)
          (Signature.mk "Ann" "a@b" 10 0) "hello") :=
  oid_deterministic _ _ rfl rfl rfl rfl rfl

/-! ## C4 — invalid category names are rejected before any store access -/

/-- C4: a category name that fails the naming constraint makes every
category-taking operation (`add_memo`, `list_memos`, `edit_memo`,
`archive_category`, `remove_memos`) fail with the `InvalidCategory` error,
with the repository untouched and nothing printed — validation runs before
any store access or mutation. -/
theorem invalid_category_rejected (category : String)
    (hinvalid : isValidCategory category = false) :
    ∀ (repo : Repo) (config : GitConfig) (now : Int × Int) (message : String)
      (jsonOutput : Bool) (casHead : Option Nat),
      add_memo repo config now category message
          = CmdOut.mk repo [] (Except.error (invalidCategoryError category)) ∧
        list_memos repo category jsonOutput
          = CmdOut.mk repo [] (Except.error (invalidCategoryError category)) ∧
        edit_memo repo config now category message casHead
          = CmdOut.mk repo [] (Except.error (invalidCategoryError category)) ∧
        archive_category repo category
          = CmdOut.mk repo [] (Except.error (invalidCategoryError category)) ∧
        remove_memos repo category
          = CmdOut.mk repo [] (Except.error (invalidCategoryError category)) := by
  intro repo config now message jsonOutput casHead
  refine ⟨?_, ?_, ?_, ?_, ?_⟩
  · simp [add_memo, validate_category_invalid hinvalid]
  · simp [list_memos, validate_category_invalid hinvalid]
  · simp [edit_memo, validate_category_invalid hinvalid]
  · rw [archive_category.eq_def, validate_category_invalid hinvalid]
  · rw [remove_memos.eq_def, validate_category_invalid hinvalid]

/-- Witness for C4: the space-containing category name `"a b"` is invalid and
every operation rejects it on a concrete repository without touching it. -/
theorem invalid_category_rejected_witness :
    add_memo (Repo.mk none []) (GitConfig.mk (some "Ann") none) (0, 0) "a b" "hi"
        = CmdOut.mk (Repo.mk none []) [] (Except.error (invalidCategoryError "a b")) ∧
      list_memos (Repo.mk none []) "a b" false
        = CmdOut.mk (Repo.mk none []) [] (Except.error (invalidCategoryError "a b")) ∧
      edit_memo (Repo.mk none []) (GitConfig.mk (some "Ann") none) (0, 0) "a b" "hi" none
        = CmdOut.mk (Repo.mk none []) [] (Except.error (invalidCategoryError "a b")) ∧
      archive_category (Repo.mk none []) "a b"
        = CmdOut.mk (Repo.mk none []) [] (Except.error (invalidCategoryError "a b")) ∧
      remove_memos (Repo.mk none []) "a b"
        = CmdOut.mk (Repo.mk none []) [] (Except.error (invalidCategoryError "a b")) :=
  invalid_category_rejected "a b" (by rfl)
    (Repo.mk none []) (GitConfig.mk (some "Ann") none) (0, 0) "hi" false none

/-! ## C7 — an absent pointer is a reported no-op, not an error -/

/-- C7: on a valid category whose pointer `refs/memo/<category>` is absent,
`list_memos`, `edit_memo`, `archive_category` and `remove_memos` all return
`Ok`, print the "No memos found" notice, and leave the repository untouched. -/
theorem absent_pointer_ops_noop (repo : Repo) (config : GitConfig) (now : Int × Int)
    (category message : String) (jsonOutput : Bool) (casHead : Option Nat)
    (hvalid : isValidCategory category = true)
    (habsent : refLookup repo.refs (memoRef category) = none) :
    list_memos repo category jsonOutput
        = CmdOut.mk repo [noMemosMsg category] (Except.ok ()) ∧
      edit_memo repo config now category message casHead
        = CmdOut.mk repo [noMemosMsg category] (Except.ok ()) ∧
      archive_category repo category
        = CmdOut.mk repo [noMemosMsg category] (Except.ok ()) ∧
      remove_memos repo category
        = CmdOut.mk repo [noMemosMsg category] (Except.ok ()) := by
  refine ⟨?_, ?_, ?_, ?_⟩
  · rw [list_memos.eq_def, validate_category_valid hvalid]
    simp [habsent]
  · rw [edit_memo.eq_def, validate_category_valid hvalid]
    simp [habsent]
  · rw [archive_category.eq_def, validate_category_valid hvalid]
    simp [habsent]
  · rw [remove_memos.eq_def, validate_category_valid hvalid]
    simp [habsent]

/-- Witness for C7 on a concrete repository without a `refs/memo/todo`
pointer. -/
theorem absent_pointer_ops_noop_witness :
    list_memos (Repo.mk none []) "todo" false
        = CmdOut.mk (Repo.mk none []) [noMemosMsg "todo"] (Except.ok ()) ∧
      edit_memo (Repo.mk none []) (GitConfig.mk (some "Ann") none) (0, 0) "todo" "x" none
        = CmdOut.mk (Repo.mk none []) [noMemosMsg "todo"] (Except.ok ()) ∧
      archive_category (Repo.mk none []) "todo"
        = CmdOut.mk (Repo.mk none []) [noMemosMsg "todo"] (Except.ok ()) ∧
      remove_memos (Repo.mk none []) "todo"
        = CmdOut.mk (Repo.mk none []) [noMemosMsg "todo"] (Except.ok ()) :=
  absent_pointer_ops_noop (Repo.mk none []) (GitConfig.mk (some "Ann") none) (0, 0)
    "todo" "x" false none (by rfl) (by rfl)

/-! ## C8 — identity requirements of `add_memo` -/

/-- C8: with a valid category, `add_memo` fails with the descriptive
`user.name` error — leaving the repository untouched, so no pointer is
created or updated — when `user.name` is unset; and when `user.name` is set
but `user.email` is absent or blank, the placeholder email `"none"` is
substituted and the append succeeds, the pointer ending up at a node
authored with that placeholder. -/
theorem add_memo_identity_requirements (repo : Repo) (config : GitConfig)
    (now : Int × Int) (category message : String)
    (hvalid : isValidCategory category = true) :
    (config.userName = none →
      add_memo repo config now category message
        = CmdOut.mk repo [] (Except.error (GitError.mk ErrorCode.generic missingNameMsg))) ∧
    (∀ nm, config.userName = some nm → isBlank (config.userEmail.getD "") = true →
      make_signature config now = Except.ok (Signature.mk nm "none" now.1 now.2) ∧
      (add_memo repo config now category message).res = Except.ok () ∧
      ∃ node,
        refLookup (add_memo repo config now category message).repo.refs (memoRef category)
            = some node ∧
          Commit.author node = Signature.mk nm "none" now.1 now.2 ∧
          Commit.message node = message) := by
  constructor
  · intro hname
    rw [add_memo.eq_def, validate_category_valid hvalid]
    simp [make_signature, hname]
  · intro nm hname hemail
    have hsig : make_signature config now = Except.ok (Signature.mk nm "none" now.1 now.2) := by
      simp [make_signature, hname, hemail]
    refine ⟨hsig, ?_, ?_⟩
    · rw [add_memo.eq_def, validate_category_valid hvalid]
      simp [hsig]
    · refine ⟨mkCommit (treeOid repo) (refLookup repo.refs (memoRef category))
        (Signature.mk nm "none" now.1 now.2) (Signature.mk nm "none" now.1 now.2) message,
        ?_, ?_, ?_⟩
      · rw [add_memo.eq_def, validate_category_valid hvalid]
        simp [hsig, refLookup_refSet_self]
      · cases hp : refLookup repo.refs (memoRef category) <;> simp [mkCommit, Commit.author]
      · cases hp : refLookup repo.refs (memoRef category) <;> simp [mkCommit, Commit.message]

/-- Witness for C8: on a concrete repository, a config with no `user.name`
is rejected with the descriptive error, and a config with `user.name` set and
a blank `user.email` appends successfully with the `"none"` placeholder. -/
theorem add_memo_identity_requirements_witness :
    (add_memo (Repo.mk none []) (GitConfig.mk none (some "a@b")) (3, 9) "todo" "hi"
        = CmdOut.mk (Repo.mk none []) []
            (Except.error (GitError.mk ErrorCode.generic missingNameMsg))) ∧
      (make_signature (GitConfig.mk (some "Ann") (some "  ")) (3, 9)
          = Except.ok (Signature.mk "Ann" "none" 3 9) ∧
        (add_memo (Repo.mk none []) (GitConfig.mk (some "Ann") (some "  ")) (3, 9)
            "todo" "hi").res = Except.ok () ∧
        ∃ node,
          refLookup (add_memo (Repo.mk none []) (GitConfig.mk (some "Ann") (some "  "))
              (3, 9) "todo" "hi").repo.refs (memoRef "todo") = some node ∧
            Commit.author node = Signature.mk "Ann" "none" 3 9 ∧
            Commit.message node = "hi") :=
  ⟨(add_memo_identity_requirements (Repo.mk none []) (GitConfig.mk none (some "a@b"))
      (3, 9) "todo" "hi" (by rfl)).1 rfl,
    (add_memo_identity_requirements (Repo.mk none []) (GitConfig.mk (some "Ann") (some "  "))
      (3, 9) "todo" "hi" (by rfl)).2 "Ann" rfl (by rfl)⟩

/-! ## C3 — archive renames with `force = true`, overwriting an existing
archive pointer -/

/-- Counterexample to C3 as stated: on a repository where both
`refs/memo/todo` and `refs/archive/todo` exist, `archive_category` does
*not* fail with an `AlreadyExists` error — it succeeds (the rename is
performed with `force = true`) and the pre-existing archive pointer is
replaced by the live head. -/
theorem archive_category_overwrite_counterexample :
    (archive_category
        (Repo.mk none
          [("refs/memo/todo",
              Commit.root "t" (Signature.mk "A" "e" 0 0) (Signature.mk "A" "e" 0 0) "live"),
            ("refs/archive/todo",
              Commit.root "t" (Signature.mk "A" "e" 0 0) (Signature.mk "A" "e" 0 0) "old")])
        "todo").res = Except.ok () ∧
      refLookup
          (archive_category
            (Repo.mk none
              [("refs/memo/todo",
                  Commit.root "t" (Signature.mk "A" "e" 0 0) (Signature.mk "A" "e" 0 0) "live"),
                ("refs/archive/todo",
                  Commit.root "t" (Signature.mk "A" "e" 0 0) (Signature.mk "A" "e" 0 0) "old")])
            "todo").repo.refs "refs/archive/todo"
        = some (Commit.root "t" (Signature.mk "A" "e" 0 0) (Signature.mk "A" "e" 0 0) "live") ∧
      Commit.root "t" (Signature.mk "A" "e" 0 0) (Signature.mk "A" "e" 0 0) "live"
        ≠ Commit.root "t" (Signature.mk "A" "e" 0 0) (Signature.mk "A" "e" 0 0) "old" := by
  refine ⟨by rfl, by rfl, by decide⟩

/-- C3 amended: when the live pointer exists, `archive_category` renames it
into the archive namespace with `overwrite = true` (libgit2 `force`), so the
operation succeeds and `refs/archive/<category>` ends up at the old live
head even if it already existed; the live pointer is deleted. -/
theorem archive_category_overwrites (repo : Repo) (category : String) (head : Commit)
    (hvalid : isValidCategory category = true)
    (hsrc : refLookup repo.refs (memoRef category) = some head) :
    archive_category repo category
        = CmdOut.mk
            (Repo.mk repo.headTree
              (refSet (refDelete repo.refs (memoRef category)) (archiveRef category) head))
            ["Archived " ++ memoRef category ++ " to " ++ archiveRef category]
            (Except.ok ()) ∧
      refLookup (archive_category repo category).repo.refs (archiveRef category)
        = some head := by
  have harch : archive_category repo category
      = CmdOut.mk
          (Repo.mk repo.headTree
            (refSet (refDelete repo.refs (memoRef category)) (archiveRef category) head))
          ["Archived " ++ memoRef category ++ " to " ++ archiveRef category]
          (Except.ok ()) := by
    rw [archive_category.eq_def, validate_category_valid hvalid]
    simp [hsrc]
  refine ⟨harch, ?_⟩
  rw [harch]
  exact refLookup_refSet_self _ _ _

/-- Witness for the amended C3: archiving a concrete one-memo category moves
the pointer into the archive namespace. -/
theorem archive_category_overwrites_witness :
    archive_category
        (Repo.mk none
          [("refs/memo/todo",
              Commit.root "t" (Signature.mk "B" "e" 1 0) (Signature.mk "B" "e" 1 0) "m")])
        "todo"
        = CmdOut.mk
            (Repo.mk none
              (refSet
                (refDelete
                  [("refs/memo/todo",
                      Commit.root "t" (Signature.mk "B" "e" 1 0) (Signature.mk "B" "e" 1 0) "m")]
                  (memoRef "todo"))
                (archiveRef "todo")
                (Commit.root "t" (Signature.mk "B" "e" 1 0) (Signature.mk "B" "e" 1 0) "m")))
            ["Archived " ++ memoRef "todo" ++ " to " ++ archiveRef "todo"]
            (Except.ok ()) ∧
      refLookup
          (archive_category
            (Repo.mk none
              [("refs/memo/todo",
                  Commit.root "t" (Signature.mk "B" "e" 1 0) (Signature.mk "B" "e" 1 0) "m")])
            "todo").repo.refs (archiveRef "todo")
        = some (Commit.root "t" (Signature.mk "B" "e" 1 0) (Signature.mk "B" "e" 1 0) "m") :=
  archive_category_overwrites
    (Repo.mk none
      [("refs/memo/todo",
          Commit.root "t" (Signature.mk "B" "e" 1 0) (Signature.mk "B" "e" 1 0) "m")])
    "todo"
    (Commit.root "t" (Signature.mk "B" "e" 1 0) (Signature.mk "B" "e" 1 0) "m")
    (by rfl) (by rfl)

/-! ## C5 — `edit_memo` performs a single, non-retried CAS -/

/-- C5: on a category with an existing head, `edit_memo` reads the head,
builds a replacement node with the same tree and the same parent but the new
payload, and performs exactly one CAS of the pointer: if the reference still
holds the old head at the CAS instant the pointer moves to the replacement,
and otherwise the conflict error is returned immediately with the repository
left untouched — there is no retry. -/
theorem edit_memo_single_cas (repo : Repo) (config : GitConfig) (now : Int × Int)
    (category message : String) (casHead : Option Nat) (head : Commit) (sig : Signature)
    (hvalid : isValidCategory category = true)
    (hhead : refLookup repo.refs (memoRef category) = some head)
    (hsig : make_signature config now = Except.ok sig) :
    (casHead = some (oidOf head) →
      edit_memo repo config now category message casHead
        = CmdOut.mk
            (Repo.mk repo.headTree
              (refSet repo.refs (memoRef category)
                (mkCommit (Commit.tree head) (Commit.parent head) sig sig message)))
            ["Updated memo "
                ++ toString (oidOf (mkCommit (Commit.tree head) (Commit.parent head) sig sig
                  message))
                ++ " under " ++ memoRef category]
            (Except.ok ())) ∧
    (casHead ≠ some (oidOf head) →
      edit_memo repo config now category message casHead
        = CmdOut.mk repo [] (Except.error amendConflictError)) := by
  constructor
  · intro hcas
    rw [edit_memo.eq_def, validate_category_valid hvalid]
    simp [hhead, hsig, hcas]
  · intro hcas
    rw [edit_memo.eq_def, validate_category_valid hvalid]
    simp [hhead, hsig, hcas]

/-- Witness for C5 on a concrete one-memo repository: an uncontended amend
replaces the head in one CAS, and a contended one (the reference no longer
holds the head's id at CAS time) surfaces the conflict error at once. -/
theorem edit_memo_single_cas_witness :
    (edit_memo
        (Repo.mk none
          [("refs/memo/todo",
              Commit.root "t" (Signature.mk "C" "e" 2 0) (Signature.mk "C" "e" 2 0) "m")])
        (GitConfig.mk (some "C") (some "e")) (2, 0) "todo" "m2"
        (some (oidOf (Commit.root "t" (Signature.mk "C" "e" 2 0) (Signature.mk "C" "e" 2 0) "m")))
        = CmdOut.mk
            (Repo.mk none
              (refSet
                [("refs/memo/todo",
                    Commit.root "t" (Signature.mk "C" "e" 2 0) (Signature.mk "C" "e" 2 0) "m")]
                (memoRef "todo")
                (mkCommit
                  (Commit.tree
                    (Commit.root "t" (Signature.mk "C" "e" 2 0) (Signature.mk "C" "e" 2 0) "m"))
                  (Commit.parent
                    (Commit.root "t" (Signature.mk "C" "e" 2 0) (Signature.mk "C" "e" 2 0) "m"))
                  (Signature.mk "C" "e" 2 0) (Signature.mk "C" "e" 2 0) "m2")))
            ["Updated memo "
                ++ toString (oidOf (mkCommit
                  (Commit.tree
                    (Commit.root "t" (Signature.mk "C" "e" 2 0) (Signature.mk "C" "e" 2 0) "m"))
                  (Commit.parent
                    (Commit.root "t" (Signature.mk "C" "e" 2 0) (Signature.mk "C" "e" 2 0) "m"))
                  (Signature.mk "C" "e" 2 0) (Signature.mk "C" "e" 2 0) "m2"))
                ++ " under " ++ memoRef "todo"]
            (Except.ok ())) ∧
      (edit_memo
        (Repo.mk none
          [("refs/memo/todo",
              Commit.root "t" (Signature.mk "C" "e" 2 0) (Signature.mk "C" "e" 2 0) "m")])
        (GitConfig.mk (some "C") (some "e")) (2, 0) "todo" "m2" none
        = CmdOut.mk
            (Repo.mk none
              [("refs/memo/todo",
                  Commit.root "t" (Signature.mk "C" "e" 2 0) (Signature.mk "C" "e" 2 0) "m")])
            [] (Except.error amendConflictError)) :=
  ⟨(edit_memo_single_cas
      (Repo.mk none
        [("refs/memo/todo",
            Commit.root "t" (Signature.mk "C" "e" 2 0) (Signature.mk "C" "e" 2 0) "m")])
      (GitConfig.mk (some "C") (some "e")) (2, 0) "todo" "m2"
      (some (oidOf (Commit.root "t" (Signature.mk "C" "e" 2 0) (Signature.mk "C" "e" 2 0) "m")))
      (Commit.root "t" (Signature.mk "C" "e" 2 0) (Signature.mk "C" "e" 2 0) "m")
      (Signature.mk "C" "e" 2 0) (by rfl) (by rfl) (by rfl)).1 rfl,
    (edit_memo_single_cas
      (Repo.mk none
        [("refs/memo/todo",
            Commit.root "t" (Signature.mk "C" "e" 2 0) (Signature.mk "C" "e" 2 0) "m")])
      (GitConfig.mk (some "C") (some "e")) (2, 0) "todo" "m2" none
      (Commit.root "t" (Signature.mk "C" "e" 2 0) (Signature.mk "C" "e" 2 0) "m")
      (Signature.mk "C" "e" 2 0) (by rfl) (by rfl) (by rfl)).2 (by simp)⟩

/-! ## C1 / C2 — the retry loop of `add_memo` -/

theorem addMemoGo_congr (tree : String) (sig : Signature) (message refname : String)
    (env env' : Nat → AttemptWorld) :
    ∀ fuel attempt, (∀ i, attempt ≤ i → i < attempt + fuel → env i = env' i) →
      addMemoGo tree sig message refname env attempt fuel
        = addMemoGo tree sig message refname env' attempt fuel := by
  intro fuel
  induction fuel with
  | zero => intro attempt h; rfl
  | succ n ih =>
      intro attempt h
      have he : env attempt = env' attempt := h attempt (Nat.le_refl _) (by omega)
      simp only [addMemoGo, he]
      cases hc : (env' attempt).cas with
      | ok u => rfl
      | error e =>
          by_cases hg : (isConflictCode e.code && decide (attempt + 1 < maxAttempts)) = true
          · simp only [hg, if_true]
            exact ih (attempt + 1) (fun i h1 h2 => h i (by omega) (by omega))
          · simp only [Bool.not_eq_true] at hg
            simp only [hg, Bool.false_eq_true, if_false]

theorem addMemoGo_success (tree : String) (sig : Signature) (message refname : String)
    (env : Nat → AttemptWorld) :
    ∀ fuel attempt j, attempt + fuel = maxAttempts → attempt ≤ j → j < maxAttempts →
      (∀ i, attempt ≤ i → i < j →
        ∃ e, (env i).cas = Except.error e ∧ isConflictCode e.code = true) →
      (env j).cas = Except.ok () →
      addMemoGo tree sig message refname env attempt fuel
        = Except.ok (oidOf (mkCommit tree (env j).head sig sig message)) := by
  intro fuel
  induction fuel with
  | zero => intro attempt j hsum hle hlt hconf hok; omega
  | succ n ih =>
      intro attempt j hsum hle hlt hconf hok
      by_cases haj : attempt = j
      · subst haj
        simp only [addMemoGo, hok]
      · have hal : attempt < j := Nat.lt_of_le_of_ne hle haj
        obtain ⟨e, hce, hcc⟩ := hconf attempt (Nat.le_refl _) hal
        have hguard : (isConflictCode e.code && decide (attempt + 1 < maxAttempts)) = true := by
          simp only [hcc, Bool.true_and, decide_eq_true_eq]
          omega
        simp only [addMemoGo, hce, hguard, if_true]
        exact ih (attempt + 1) j (by omega) (by omega) hlt
          (fun i h1 h2 => hconf i (by omega) h2) hok

theorem addMemoGo_all_conflicts (tree : String) (sig : Signature) (message refname : String)
    (env : Nat → AttemptWorld) :
    ∀ fuel attempt e, attempt + fuel = maxAttempts → 0 < fuel →
      (∀ i, attempt ≤ i → i < maxAttempts →
        ∃ d, (env i).cas = Except.error d ∧ isConflictCode d.code = true) →
      (env (maxAttempts - 1)).cas = Except.error e →
      addMemoGo tree sig message refname env attempt fuel = Except.error e := by
  intro fuel
  induction fuel with
  | zero => intro attempt e hsum hpos hconf hlast; omega
  | succ n ih =>
      intro attempt e hsum _ hconf hlast
      obtain ⟨d, hd, hdc⟩ := hconf attempt (Nat.le_refl _) (by omega)
      by_cases hn : 0 < n
      · have hguard : (isConflictCode d.code && decide (attempt + 1 < maxAttempts)) = true := by
          simp only [hdc, Bool.true_and, decide_eq_true_eq]
          omega
        simp only [addMemoGo, hd, hguard, if_true]
        exact ih (attempt + 1) e (by omega) hn
          (fun i h1 h2 => hconf i (by omega) h2) hlast
      · have hlastattempt : attempt = maxAttempts - 1 := by omega
        have hde : d = e := by
          rw [hlastattempt] at hd
          rw [hd] at hlast
          exact (Except.error.injEq _ _).mp hlast
        have hguard : (isConflictCode d.code && decide (attempt + 1 < maxAttempts)) = false := by
          have : ¬(attempt + 1 < maxAttempts) := by omega
          simp [this]
        rw [hde] at hd hguard
        simp only [addMemoGo, hd, hguard, Bool.false_eq_true, if_false]

/-- C1: on a valid category, the retry loop of `add_memo` is bounded by 5
read-build-CAS cycles (its result depends only on the first `maxAttempts = 5`
attempt environments), and whenever the CAS fails with a conflict-class
error on every attempt before `j` and succeeds at attempt `j`, the committed
node is rebuilt from the head freshly read at attempt `j` — its parent is
`(env j).head`, the value of `refs/memo/<category>` read in that cycle. -/
theorem add_memo_retry_rereads_head (tree : String) (sig : Signature)
    (message category : String) (env : Nat → AttemptWorld)
    (_hvalid : isValidCategory category = true) :
    maxAttempts = 5 ∧
      (∀ env', (∀ i, i < maxAttempts → env i = env' i) →
        addMemoLoop tree sig message (memoRef category) env
          = addMemoLoop tree sig message (memoRef category) env') ∧
      (∀ j, j < maxAttempts →
        (∀ i, i < j → ∃ e, (env i).cas = Except.error e ∧ isConflictCode e.code = true) →
        (env j).cas = Except.ok () →
        addMemoLoop tree sig message (memoRef category) env
          = Except.ok (oidOf (mkCommit tree (env j).head sig sig message))) := by
  refine ⟨rfl, ?_, ?_⟩
  · intro env' h
    exact addMemoGo_congr tree sig message (memoRef category) env env' maxAttempts 0
      (fun i h1 h2 => h i (by omega))
  · intro j hj hconf hok
    exact addMemoGo_success tree sig message (memoRef category) env maxAttempts 0 j rfl
      (Nat.zero_le _) hj (fun i h1 h2 => hconf i h2) hok

/-- Witness for C1: with a conflict on attempt 0 and a successful CAS on
attempt 1, the loop returns the node whose parent is the head re-read at
attempt 1. -/
theorem add_memo_retry_rereads_head_witness :
    addMemoLoop "t" (Signature.mk "W" "e" 0 0) "m" (memoRef "todo")
        (fun i =>
          if i = 0 then
            AttemptWorld.mk none (Except.error (GitError.mk ErrorCode.modified "c0"))
          else
            AttemptWorld.mk
              (some (Commit.root "t" (Signature.mk "W" "e" 0 0) (Signature.mk "W" "e" 0 0) "m0"))
              (Except.ok ()))
      = Except.ok (oidOf (mkCommit "t"
          (some (Commit.root "t" (Signature.mk "W" "e" 0 0) (Signature.mk "W" "e" 0 0) "m0"))
          (Signature.mk "W" "e" 0 0) (Signature.mk "W" "e" 0 0) "m")) :=
  (add_memo_retry_rereads_head "t" (Signature.mk "W" "e" 0 0) "m" "todo"
      (fun i =>
        if i = 0 then
          AttemptWorld.mk none (Except.error (GitError.mk ErrorCode.modified "c0"))
        else
          AttemptWorld.mk
            (some (Commit.root "t" (Signature.mk "W" "e" 0 0) (Signature.mk "W" "e" 0 0) "m0"))
            (Except.ok ()))
      (by rfl)).2.2 1 (by decide)
    (by
      intro i hi
      have hi0 : i = 0 := by omega
      subst hi0
      exact ⟨GitError.mk ErrorCode.modified "c0", rfl, rfl⟩)
    rfl

/-- Counterexample to C2 as stated: when every one of the 5 attempts fails
with a conflict-class error, the loop returns the raw conflict error of the
final attempt (here `"conflict 4"`), whose message is not the exhaustion
message naming the pointer and the attempt count — the post-loop
`retryExhaustedError` is unreachable. -/
theorem add_memo_exhaustion_counterexample :
    addMemoLoop "t" (Signature.mk "A" "e" 0 0) "m" (memoRef "todo")
        (fun i =>
          AttemptWorld.mk none
            (Except.error (GitError.mk ErrorCode.modified ("conflict " ++ toString i))))
        = Except.error (GitError.mk ErrorCode.modified "conflict 4") ∧
      (GitError.mk ErrorCode.modified "conflict 4").message
        ≠ (retryExhaustedError (memoRef "todo")).message := by
  exact ⟨by rfl, by decide⟩

/-- C2 amended: if a conflict-class CAS failure occurs on every one of the
5 attempts, `add_memo` fails with the conflict error returned by the final
attempt (the loop's guard `attempt + 1 < max_attempts` makes the last
conflict return its own error, so the post-loop exhaustion message naming
the pointer and attempt count is dead code); the failure is surfaced to the
caller, never silently dropped. -/
theorem add_memo_exhaustion_returns_last_error (tree : String) (sig : Signature)
    (message category : String) (env : Nat → AttemptWorld)
    (_hvalid : isValidCategory category = true)
    (hconf : ∀ i, i < maxAttempts →
      ∃ d, (env i).cas = Except.error d ∧ isConflictCode d.code = true) :
    (∀ e, (env (maxAttempts - 1)).cas = Except.error e →
      addMemoLoop tree sig message (memoRef category) env = Except.error e) ∧
      ∃ e, addMemoLoop tree sig message (memoRef category) env = Except.error e ∧
        isConflictCode e.code = true := by
  constructor
  · intro e hlast
    exact addMemoGo_all_conflicts tree sig message (memoRef category) env maxAttempts 0 e
      rfl (by decide) (fun i h1 h2 => hconf i h2) hlast
  · obtain ⟨d, hd, hdc⟩ := hconf (maxAttempts - 1) (by decide)
    exact ⟨d,
      addMemoGo_all_conflicts tree sig message (memoRef category) env maxAttempts 0 d
        rfl (by decide) (fun i h1 h2 => hconf i h2) hd,
      hdc⟩

/-- Witness for the amended C2: with conflict-class failures on all 5
attempts, the loop returns the final attempt's error. -/
theorem add_memo_exhaustion_returns_last_error_witness :
    addMemoLoop "t" (Signature.mk "A" "e" 0 0) "m" (memoRef "todo")
        (fun i =>
          AttemptWorld.mk none
            (Except.error (GitError.mk ErrorCode.locked ("locked " ++ toString i))))
      = Except.error (GitError.mk ErrorCode.locked "locked 4") :=
  (add_memo_exhaustion_returns_last_error "t" (Signature.mk "A" "e" 0 0) "m" "todo"
      (fun i =>
        AttemptWorld.mk none
          (Except.error (GitError.mk ErrorCode.locked ("locked " ++ toString i))))
      (by rfl)
      (fun i hi => ⟨GitError.mk ErrorCode.locked ("locked " ++ toString i), rfl, rfl⟩)).1
    (GitError.mk ErrorCode.locked "locked 4") rfl

/-! ## C6 — sequential appends read back oldest-first with intact parent links -/

/-- The oldest-first chain of an optional head (empty when the pointer is
absent). -/
def chainOldOpt : Option Commit → List Commit
  | none => []
  | some c => chainOldestFirst c

theorem chainOldOpt_mk (tree : String) (h : Option Commit) (a c : Signature) (m : String) :
    chainOldOpt (some (mkCommit tree h a c m)) = chainOldOpt h ++ [mkCommit tree h a c m] := by
  cases h with
  | none => simp [chainOldOpt, mkCommit, chainOldestFirst, chainNewestFirst]
  | some p => simp [chainOldOpt, mkCommit, chainOldestFirst, chainNewestFirst]

theorem chainOldOpt_chainAfter (tree : String) (sig : Signature) :
    ∀ (msgs : List String) (h : Option Commit),
      chainOldOpt (chainAfter tree sig h msgs) = chainOldOpt h ++ nodesFrom tree sig h msgs := by
  intro msgs
  induction msgs with
  | nil => intro h; simp [chainAfter, nodesFrom]
  | cons m ms ih =>
      intro h
      rw [chainAfter, nodesFrom, ih (some (mkCommit tree h sig sig m)), chainOldOpt_mk]
      simp

theorem map_message_nodesFrom (tree : String) (sig : Signature) :
    ∀ (msgs : List String) (h : Option Commit),
      (nodesFrom tree sig h msgs).map Commit.message = msgs := by
  intro msgs
  induction msgs with
  | nil => intro h; simp [nodesFrom]
  | cons m ms ih =>
      intro h
      rw [nodesFrom]
      simp [message_mkCommit, ih]

theorem linkedOids_nodesFrom (tree : String) (sig : Signature) :
    ∀ (msgs : List String) (h : Option Commit),
      linkedOids (h.map oidOf) (nodesFrom tree sig h msgs) = true := by
  intro msgs
  induction msgs with
  | nil => intro h; rfl
  | cons m ms ih =>
      intro h
      rw [nodesFrom, linkedOids]
      have hp : parentOid (mkCommit tree h sig sig m) = h.map oidOf :=
        parentOid_mkCommit tree h sig sig m
      have hrest := ih (some (mkCommit tree h sig sig m))
      simp only [hp, beq_self_eq_true, Bool.true_and]
      simpa using hrest

theorem add_memo_ok (repo : Repo) (config : GitConfig) (now : Int × Int)
    (category message : String) (sig : Signature)
    (hvalid : isValidCategory category = true)
    (hsig : make_signature config now = Except.ok sig) :
    add_memo repo config now category message
      = CmdOut.mk
          (Repo.mk repo.headTree
            (refSet repo.refs (memoRef category)
              (mkCommit (treeOid repo) (refLookup repo.refs (memoRef category)) sig sig
                message)))
          ["Recorded memo "
              ++ toString (oidOf (mkCommit (treeOid repo)
                (refLookup repo.refs (memoRef category)) sig sig message))
              ++ " under " ++ memoRef category]
          (Except.ok ()) := by
  rw [add_memo.eq_def, validate_category_valid hvalid]
  simp [hsig]

theorem appendAll_state (config : GitConfig) (now : Int × Int) (category : String)
    (sig : Signature) (hvalid : isValidCategory category = true)
    (hsig : make_signature config now = Except.ok sig) :
    ∀ (msgs : List String) (repo : Repo),
      (appendAll config now category repo msgs).headTree = repo.headTree ∧
        refLookup (appendAll config now category repo msgs).refs (memoRef category)
          = chainAfter (treeOid repo) sig (refLookup repo.refs (memoRef category)) msgs := by
  intro msgs
  induction msgs with
  | nil => intro repo; exact ⟨rfl, rfl⟩
  | cons m ms ih =>
      intro repo
      rw [appendAll, add_memo_ok repo config now category m sig hvalid hsig]
      obtain ⟨ht, hr⟩ := ih (Repo.mk repo.headTree
        (refSet repo.refs (memoRef category)
          (mkCommit (treeOid repo) (refLookup repo.refs (memoRef category)) sig sig m)))
      constructor
      · exact ht
      · rw [hr]
        have htree : treeOid (Repo.mk repo.headTree
            (refSet repo.refs (memoRef category)
              (mkCommit (treeOid repo) (refLookup repo.refs (memoRef category)) sig sig m)))
            = treeOid repo := rfl
        rw [htree, chainAfter]
        have hself : refLookup
            (refSet repo.refs (memoRef category)
              (mkCommit (treeOid repo) (refLookup repo.refs (memoRef category)) sig sig m))
            (memoRef category)
            = some (mkCommit (treeOid repo) (refLookup repo.refs (memoRef category)) sig sig m) :=
          refLookup_refSet_self _ _ _
        rw [hself]

theorem chainAfter_from_some (tree : String) (sig : Signature) :
    ∀ (msgs : List String) (c : Commit),
      ∃ head, chainAfter tree sig (some c) msgs = some head := by
  intro msgs
  induction msgs with
  | nil => intro c; exact ⟨c, rfl⟩
  | cons m ms ih =>
      intro c
      rw [chainAfter]
      exact ih (mkCommit tree (some c) sig sig m)

theorem chainAfter_some_of_ne_nil (tree : String) (sig : Signature) :
    ∀ (msgs : List String) (h : Option Commit), msgs ≠ [] →
      ∃ head, chainAfter tree sig h msgs = some head := by
  intro msgs
  cases msgs with
  | nil => intro h hne; exact absurd rfl hne
  | cons m ms =>
      intro h hne
      rw [chainAfter]
      exact chainAfter_from_some tree sig ms (mkCommit tree h sig sig m)

/-- C6: appending the payloads `msgs` sequentially (single writer) to a
valid category whose pointer is initially absent leaves the pointer at a
head whose oldest-first chain carries exactly those payloads in append
order, with the first node parentless and every later node's parent
ObjectId equal to the ObjectId of the node appended just before it; and
`list_memos` prints exactly that chain, oldest first. -/
theorem append_readAll_oldest_first (repo : Repo) (config : GitConfig) (now : Int × Int)
    (category : String) (sig : Signature) (msgs : List String)
    (hvalid : isValidCategory category = true)
    (hsig : make_signature config now = Except.ok sig)
    (habsent : refLookup repo.refs (memoRef category) = none)
    (hne : msgs ≠ []) :
    ∃ head,
      refLookup (appendAll config now category repo msgs).refs (memoRef category)
          = some head ∧
        (chainOldestFirst head).map Commit.message = msgs ∧
        (chainOldestFirst head).length = msgs.length ∧
        linkedOids none (chainOldestFirst head) = true ∧
        (list_memos (appendAll config now category repo msgs) category false).out
          = (chainOldestFirst head).map
              (fun c => toString (oidOf c) ++ " " ++ summaryOf (Commit.message c)) := by
  obtain ⟨ht, hr⟩ := appendAll_state config now category sig hvalid hsig msgs repo
  rw [habsent] at hr
  obtain ⟨head, hhead⟩ := chainAfter_some_of_ne_nil (treeOid repo) sig msgs none hne
  rw [hhead] at hr
  have hchain : chainOldestFirst head = nodesFrom (treeOid repo) sig none msgs := by
    have := chainOldOpt_chainAfter (treeOid repo) sig msgs none
    rw [hhead] at this
    simpa [chainOldOpt] using this
  refine ⟨head, hr, ?_, ?_, ?_, ?_⟩
  · rw [hchain]
    exact map_message_nodesFrom (treeOid repo) sig msgs none
  · rw [hchain]
    have := map_message_nodesFrom (treeOid repo) sig msgs none
    calc (nodesFrom (treeOid repo) sig none msgs).length
        = ((nodesFrom (treeOid repo) sig none msgs).map Commit.message).length := by
          rw [List.length_map]
      _ = msgs.length := by rw [this]
  · rw [hchain]
    have := linkedOids_nodesFrom (treeOid repo) sig msgs none
    simpa using this
  · rw [list_memos.eq_def, validate_category_valid hvalid]
    simp [hr]

/-- Witness for C6: two appends to a fresh category produce a two-node chain
read back oldest-first with intact parent links. -/
theorem append_readAll_oldest_first_witness :
    ∃ head,
      refLookup
          (appendAll (GitConfig.mk (some "W") (some "w@x")) (4, 0) "todo" (Repo.mk none [])
            ["one", "two"]).refs (memoRef "todo")
          = some head ∧
        (chainOldestFirst head).map Commit.message = ["one", "two"] ∧
        (chainOldestFirst head).length = (["one", "two"] : List String).length ∧
        linkedOids none (chainOldestFirst head) = true ∧
        (list_memos
            (appendAll (GitConfig.mk (some "W") (some "w@x")) (4, 0) "todo" (Repo.mk none [])
              ["one", "two"])
            "todo" false).out
          = (chainOldestFirst head).map
              (fun c => toString (oidOf c) ++ " " ++ summaryOf (Commit.message c)) :=
  append_readAll_oldest_first (Repo.mk none []) (GitConfig.mk (some "W") (some "w@x")) (4, 0)
    "todo" (Signature.mk "W" "w@x" 4 0) ["one", "two"] (by rfl) (by rfl) (by rfl) (by simp)

/-! ## C10 — category listings are deduplicated and ascending -/

theorem mem_setInsert (x : String) :
    ∀ (l : List String) (z : String), z ∈ setInsert x l → z = x ∨ z ∈ l := by
  intro l
  induction l with
  | nil =>
      intro z hz
      rw [setInsert] at hz
      exact Or.inl (List.mem_singleton.mp hz)
  | cons y ys ih =>
      intro z hz
      rw [setInsert] at hz
      split_ifs at hz with h1 h2
      · rcases List.mem_cons.mp hz with h | h
        · exact Or.inl h
        · exact Or.inr h
      · rcases List.mem_cons.mp hz with h | h
        · exact Or.inr (h ▸ List.mem_cons_self y ys)
        · rcases ih z h with h' | h'
          · exact Or.inl h'
          · exact Or.inr (List.mem_cons_of_mem y h')
      · exact Or.inr hz

theorem setInsert_pairwise (x : String) :
    ∀ (l : List String), l.Pairwise (· < ·) → (setInsert x l).Pairwise (· < ·) := by
  intro l
  induction l with
  | nil => intro h; simp [setInsert]
  | cons y ys ih =>
      intro h
      rw [List.pairwise_cons] at h
      obtain ⟨hy, hys⟩ := h
      rw [setInsert]
      split_ifs with h1 h2
      · refine List.Pairwise.cons ?_ (List.Pairwise.cons hy hys)
        intro b hb
        rcases List.mem_cons.mp hb with rfl | hb'
        · exact h1
        · exact lt_trans h1 (hy b hb')
      · refine List.Pairwise.cons ?_ (ih hys)
        intro b hb
        rcases mem_setInsert x ys b hb with rfl | hb'
        · exact h2
        · exact hy b hb'
      · exact List.Pairwise.cons hy hys

theorem categories_foldl_pairwise (ns : String) :
    ∀ (refs : List (String × Commit)) (acc : List String),
      acc.Pairwise (· < ·) →
      (refs.foldl
        (fun acc p =>
          match dropNamespaceOf ns p.1 with
          | some cat => setInsert cat acc
          | none => acc)
        acc).Pairwise (· < ·) := by
  intro refs
  induction refs with
  | nil => intro acc h; exact h
  | cons p rest ih =>
      intro acc h
      rw [List.foldl_cons]
      cases hd : dropNamespaceOf ns p.1 with
      | some cat =>
          simp only [hd]
          exact ih _ (setInsert_pairwise cat acc h)
      | none =>
          simp only [hd]
          exact ih _ h

theorem categoriesUnder_pairwise (ns : String) (refs : List (String × Commit)) :
    (categoriesUnder ns refs).Pairwise (· < ·) := by
  rw [categoriesUnder]
  exact categories_foldl_pairwise ns refs [] (List.Pairwise.nil)

theorem categoriesUnder_nodup (ns : String) (refs : List (String × Commit)) :
    (categoriesUnder ns refs).Nodup :=
  (categoriesUnder_pairwise ns refs).imp (fun h => ne_of_lt h)

/-- C10: the category listings output every category at most once and in
ascending lexicographic order, in both plain and JSON modes: the underlying
set is strictly ascending (hence duplicate-free), the plain output is
exactly that list, and the JSON output is its rendering — for both
`list_categories` (`refs/memo/*`) and `list_archive_categories`
(`refs/archive/*`). -/
theorem categories_listings_sorted_dedup (repo : Repo) :
    ((categoriesUnder "refs/memo/" repo.refs).Pairwise (· < ·) ∧
      (categoriesUnder "refs/memo/" repo.refs).Nodup ∧
      (list_categories repo false).out = categoriesUnder "refs/memo/" repo.refs ∧
      (list_categories repo true).out
        = [jsonStrings (categoriesUnder "refs/memo/" repo.refs)]) ∧
    ((categoriesUnder "refs/archive/" repo.refs).Pairwise (· < ·) ∧
      (categoriesUnder "refs/archive/" repo.refs).Nodup ∧
      (list_archive_categories repo false).out = categoriesUnder "refs/archive/" repo.refs ∧
      (list_archive_categories repo true).out
        = [jsonStrings (categoriesUnder "refs/archive/" repo.refs)]) :=
  ⟨⟨categoriesUnder_pairwise _ _, categoriesUnder_nodup _ _, rfl, rfl⟩,
    ⟨categoriesUnder_pairwise _ _, categoriesUnder_nodup _ _, rfl, rfl⟩⟩
